import Mathlib

/-!
# Verification of `src/followers/data_classification.py`

A shallow embedding of the data pipeline of the bot-classification script:
the pandas train/validation split (lines 83-84), the `tf.data` wrapper
`dataframe_to_dataset` (lines 96-101) with its full-buffer shuffle and
`batch(32)` (lines 120-121), the three Keras preprocessing encoders
(lines 155-212), the model input declarations and encoder wiring
(lines 221-261), and the inference call on the hand-written sample
(lines 307-322).

Conventions of the embedding:
* a dataframe row is an association list from column name to a rational
  value (CSV cells are decimal numbers); a dataframe is a list of rows;
* pandas object identity (needed to express that `dataframe.pop` mutates
  one object and not another) is modelled by a store of dataframes
  addressed by natural numbers;
* the pseudo-random choices made by `DataFrame.sample` and
  `tf.data.Dataset.shuffle` are deterministic functions of the seed in the
  libraries; the embedding passes the chosen index sequences explicitly,
  so determinism of the split is definitional and every theorem quantifies
  over the choice sequence where the code draws random numbers.
-/

/-! ## List statistics (the aggregates `Normalization.adapt` computes) -/

/-- Sample mean of a list of rationals, as the Keras `Normalization`
layer computes it over the adapted column (population convention). -/
def listMean (xs : List ℚ) : ℚ := xs.sum / xs.length

/-- Population variance of a list of rationals, the second statistic the
Keras `Normalization` layer learns during `adapt`. -/
def listVar (xs : List ℚ) : ℚ :=
  (xs.map (fun x => (x - listMean xs) * (x - listMean xs))).sum / xs.length

/-- `Normalization.adapt` (line 164 adapts the layer on the feature
column): the learned state is the (mean, variance) pair of the column. -/
def normalizationAdapt (xs : List ℚ) : ℚ × ℚ := (listMean xs, listVar xs)

/-- Keras backend epsilon `K.epsilon() = 1e-7`, the floor the
`Normalization` layer puts under the standard deviation. -/
def kerasEpsilon : ℚ := 1 / 10000000

/-- The `Normalization` layer's forward computation (line 167): given the
adapted mean and standard deviation `sigma = sqrt(variance)`, a raw scalar
`x` is mapped to `(x - mean) / max(sigma, epsilon)`. The square root is
not rational, so the call takes `sigma` as an argument; theorems relate it
to the adapted variance by the hypothesis `sigma * sigma = variance`. -/
def normalizationCall (mean sigma x : ℚ) : ℚ := (x - mean) / max sigma kerasEpsilon

theorem sum_map_div (xs : List ℚ) (f : ℚ → ℚ) (c : ℚ) :
    (xs.map (fun x => f x / c)).sum = (xs.map f).sum / c := by
  induction xs with
  | nil => simp
  | cons x xs ih => simp [ih, div_add_div_same]

theorem sum_map_sub_const (xs : List ℚ) (a : ℚ) :
    (xs.map (fun x => x - a)).sum = xs.sum - xs.length * a := by
  induction xs with
  | nil => simp
  | cons x xs ih =>
    simp only [List.map_cons, List.sum_cons, ih, List.length_cons]
    push_cast
    ring

theorem length_cast_ne_zero {xs : List ℚ} (h : xs ≠ []) : (xs.length : ℚ) ≠ 0 := by
  have : 0 < xs.length := List.length_pos.mpr h
  exact_mod_cast Nat.pos_iff_ne_zero.mp this

theorem listMean_eq (ys : List ℚ) : listMean ys = ys.sum / ys.length := rfl

theorem listVar_eq (ys : List ℚ) :
    listVar ys = (ys.map (fun x => (x - listMean ys) * (x - listMean ys))).sum / ys.length := rfl

/-- **C4.** For every numerical feature, the encoder adapted on the
training column transforms a raw scalar `x` into `(x - mean)/max(std, ε)`
(that is `normalizationCall` applied to the `normalizationAdapt`
statistics, with `sigma * sigma = variance`); the epsilon floor keeps the
denominator positive, and the transformed training values have sample
mean exactly 0 and sample variance exactly 1 whenever the standard
deviation is not below the epsilon floor. -/
theorem c4_normalization_standardizes (xs : List ℚ) (sigma : ℚ)
    (hne : xs ≠ []) (hs0 : 0 ≤ sigma)
    (hvar : sigma * sigma = (normalizationAdapt xs).2)
    (heps : kerasEpsilon ≤ sigma) :
    listMean (xs.map (normalizationCall (normalizationAdapt xs).1 sigma)) = 0 ∧
    listVar (xs.map (normalizationCall (normalizationAdapt xs).1 sigma)) = 1 ∧
    (∀ tau : ℚ, 0 ≤ tau → 0 < max tau kerasEpsilon) := by
  have hn : (xs.length : ℚ) ≠ 0 := length_cast_ne_zero hne
  have hepspos : (0 : ℚ) < kerasEpsilon := by norm_num [kerasEpsilon]
  have hsigpos : (0 : ℚ) < sigma := lt_of_lt_of_le hepspos heps
  have hsig : sigma ≠ 0 := ne_of_gt hsigpos
  have hmax : max sigma kerasEpsilon = sigma := max_eq_left heps
  -- the transformed column, rewritten with the max resolved
  have hcall : ∀ x : ℚ, normalizationCall (normalizationAdapt xs).1 sigma x
      = (x - listMean xs) / sigma := by
    intro x; simp [normalizationCall, normalizationAdapt, hmax]
  have hmap : xs.map (normalizationCall (normalizationAdapt xs).1 sigma)
      = xs.map (fun x => (x - listMean xs) / sigma) := by
    exact List.map_congr_left (fun x _ => hcall x)
  have hlen : (xs.map (fun x => (x - listMean xs) / sigma)).length = xs.length := by
    simp
  -- sum of the transformed column is zero
  have hsum : (xs.map (fun x => (x - listMean xs) / sigma)).sum = 0 := by
    rw [sum_map_div xs (fun x => x - listMean xs) sigma,
      sum_map_sub_const xs (listMean xs)]
    have : xs.sum - (xs.length : ℚ) * listMean xs = 0 := by
      field_simp [listMean]
    rw [this, zero_div]
  have hmean : listMean (xs.map (normalizationCall (normalizationAdapt xs).1 sigma)) = 0 := by
    rw [hmap, listMean_eq, hsum, zero_div]
  refine ⟨hmean, ?_, ?_⟩
  · -- variance of the transformed column is one
    rw [hmap, listVar_eq]
    have hmean' : listMean (xs.map (fun x => (x - listMean xs) / sigma)) = 0 := by
      rw [listMean_eq, hsum, zero_div]
    rw [hmean', hlen]
    have hsq : (xs.map (fun x => (x - listMean xs) / sigma)).map
        (fun y => (y - 0) * (y - 0))
        = xs.map (fun x => ((x - listMean xs) * (x - listMean xs)) / (sigma * sigma)) := by
      rw [List.map_map]
      refine List.map_congr_left (fun x _ => ?_)
      simp only [Function.comp_apply, sub_zero]
      rw [div_mul_div_comm]
    rw [hsq, sum_map_div xs (fun x => (x - listMean xs) * (x - listMean xs)) (sigma * sigma)]
    have hvar' : (xs.map (fun x => (x - listMean xs) * (x - listMean xs))).sum
        = sigma * sigma * xs.length := by
      have h2 : (normalizationAdapt xs).2 = listVar xs := rfl
      rw [h2, listVar_eq] at hvar
      field_simp at hvar ⊢
      linarith [hvar]
    rw [hvar']
    field_simp
  · intro tau htau
    exact lt_max_of_lt_right hepspos

/-- Witness for C4 at the concrete training column `[0, 2]`, whose adapted
statistics are mean 1 and variance 1, so `sigma = 1`. -/
theorem c4_normalization_standardizes_witness :
    listMean ([(0 : ℚ), 2].map (normalizationCall (normalizationAdapt [(0 : ℚ), 2]).1 1)) = 0 ∧
    listVar ([(0 : ℚ), 2].map (normalizationCall (normalizationAdapt [(0 : ℚ), 2]).1 1)) = 1 ∧
    (∀ tau : ℚ, 0 ≤ tau → 0 < max tau kerasEpsilon) :=
  c4_normalization_standardizes [(0 : ℚ), 2] 1 (by decide) (by norm_num)
    (by norm_num [normalizationAdapt, listVar, listMean]) (by norm_num [kerasEpsilon])

/-! ## Integer categorical encoding (`encode_integer_categorical_feature`,
lines 199-212)

The script builds `CategoryEncoding(output_mode="binary")` from
`tensorflow.keras.layers.experimental.preprocessing` (TF 2.3) and adapts
it on the training column.  That layer's `adapt` learns a single number:
`num_tokens = (maximum value observed) + 1`; its call then one-hot encodes
an integer `v` as the length-`num_tokens` vector with a 1 at index `v`.
No slot is reserved for unseen values, and codes at or above `num_tokens`
are out of the layer's output range. -/

/-- `CategoryEncoding.adapt` (line 208): the learned output width is the
maximum code observed in the adapted column plus one. -/
def categoryEncodingAdapt (xs : List ℕ) : ℕ := xs.foldr max 0 + 1

/-- One-hot vector of the given width with a 1 exactly at index `v`. -/
def oneHot (width v : ℕ) : List ℚ :=
  (List.range width).map (fun i => if i = v then 1 else 0)

/-- `CategoryEncoding.__call__` (line 211) on a single integer code:
codes inside the learned width are one-hot encoded; codes at or above the
width are outside the layer's index space (no unknown bucket exists). -/
def categoryEncodingCall (width v : ℕ) : Option (List ℚ) :=
  if v < width then some (oneHot width v) else none

/-- Number of distinct codes in a column (what the claim says the width
is derived from). -/
def distinctCount (xs : List ℕ) : ℕ := xs.dedup.length

/-- **C2 counterexample.** On the training column `[0, 1]` (two distinct
codes, e.g. the boolean `Profile_picture` feature) the claimed width
"distinct codes + 1 reserved slot" would be 3, but the adapted layer's
width is `max + 1 = 2`: no slot is reserved for unseen values. -/
theorem c2_counterexample_no_reserved_slot :
    ¬ (categoryEncodingAdapt [0, 1] = distinctCount [0, 1] + 1) := by
  decide

theorem foldr_max_mem : ∀ xs : List ℕ, xs ≠ [] → xs.foldr max 0 ∈ xs := by
  intro xs
  induction xs with
  | nil => intro h; exact absurd rfl h
  | cons x xs ih =>
    intro _
    cases xs with
    | nil => simp
    | cons y ys =>
      rcases le_total ((y :: ys).foldr max 0) x with h | h
      · simp only [List.foldr_cons] at h ⊢
        rw [max_eq_left h]
        exact List.mem_cons_self x _
      · simp only [List.foldr_cons] at h ⊢
        rw [max_eq_right h]
        exact List.mem_cons_of_mem x (ih (by simp))

theorem le_foldr_max {v : ℕ} : ∀ {xs : List ℕ}, v ∈ xs → v ≤ xs.foldr max 0 := by
  intro xs
  induction xs with
  | nil => intro h; cases h
  | cons x xs ih =>
    intro hv
    rcases List.mem_cons.mp hv with h | h
    · subst h; exact le_max_left _ _
    · exact le_trans (ih h) (le_max_right _ _)

theorem oneHot_getD (w v j : ℕ) (hj : j < w) :
    (oneHot w v).getD j 0 = if j = v then 1 else 0 := by
  unfold oneHot
  rw [List.getD_eq_getElem?_getD, List.getElem?_map, List.getElem?_range hj]
  rfl

/-- **C2 amended.** For every integer-categorical feature, after `adapt`
over the training column the one-hot width is `(greatest observed code) + 1`
— every width index is an observed-or-smaller code, with no extra slot
reserved for unseen values — and transforming a code seen in training
yields a vector of exactly that width with a single 1 at the index equal
to the code and 0 at every other index. -/
theorem c2_category_encoding_amended (xs : List ℕ) (v : ℕ) (hv : v ∈ xs) :
    (∃ m ∈ xs, categoryEncodingAdapt xs = m + 1) ∧
    v < categoryEncodingAdapt xs ∧
    categoryEncodingCall (categoryEncodingAdapt xs) v
      = some (oneHot (categoryEncodingAdapt xs) v) ∧
    (oneHot (categoryEncodingAdapt xs) v).length = categoryEncodingAdapt xs ∧
    (oneHot (categoryEncodingAdapt xs) v).getD v 0 = 1 ∧
    (∀ j, j < categoryEncodingAdapt xs → j ≠ v →
      (oneHot (categoryEncodingAdapt xs) v).getD j 0 = 0) := by
  have hne : xs ≠ [] := by intro h; rw [h] at hv; cases hv
  have hvlt : v < categoryEncodingAdapt xs :=
    Nat.lt_succ_of_le (le_foldr_max hv)
  refine ⟨⟨xs.foldr max 0, foldr_max_mem xs hne, rfl⟩, hvlt, ?_, ?_, ?_, ?_⟩
  · simp [categoryEncodingCall, hvlt]
  · simp [oneHot]
  · rw [oneHot_getD _ _ _ hvlt]; simp
  · intro j hj hjv
    rw [oneHot_getD _ _ _ hj]
    simp [hjv]

/-- Witness for the amended C2 at the column `[0, 1]` and the seen code 1. -/
theorem c2_category_encoding_amended_witness :
    (∃ m ∈ [0, 1], categoryEncodingAdapt [0, 1] = m + 1) ∧
    1 < categoryEncodingAdapt [0, 1] ∧
    categoryEncodingCall (categoryEncodingAdapt [0, 1]) 1
      = some (oneHot (categoryEncodingAdapt [0, 1]) 1) ∧
    (oneHot (categoryEncodingAdapt [0, 1]) 1).length = categoryEncodingAdapt [0, 1] ∧
    (oneHot (categoryEncodingAdapt [0, 1]) 1).getD 1 0 = 1 ∧
    (∀ j, j < categoryEncodingAdapt [0, 1] → j ≠ 1 →
      (oneHot (categoryEncodingAdapt [0, 1]) 1).getD j 0 = 0) :=
  c2_category_encoding_amended [0, 1] 1 (by decide)

/-! ## The train/validation split (lines 83-84)

`val_dataframe = dataframe.sample(frac=0.15, random_state=1337)` draws
`round(0.15 * N)` row positions without replacement — a deterministic
function of the seed and `N`, passed here explicitly as `positions`,
which pandas guarantees to be duplicate-free and in range.
`train_dataframe = dataframe.drop(val_dataframe.index)` then removes
every row whose index label occurs among the sampled rows' labels.
`pd.read_csv` (line 62) always produces the distinct range index. -/

/-- `DataFrame.sample`: the rows at the drawn positions, labels kept. -/
def pandasSample (positions : List ℕ) (df : List (ℕ × α)) : List (ℕ × α) :=
  positions.filterMap (fun p => df.get? p)

/-- `DataFrame.drop(labels)`: removes every row whose index label is in
`labels` (all of them, when labels repeat). -/
def pandasDrop (labels : List ℕ) (df : List (ℕ × α)) : List (ℕ × α) :=
  df.filter (fun r => decide (r.1 ∉ labels))

/-- Lines 83-84: the (train, validation) pair produced by sampling the
validation rows and dropping their index labels from the dataframe. -/
def pandasSplit (positions : List ℕ) (df : List (ℕ × α)) : List (ℕ × α) × List (ℕ × α) :=
  let val := pandasSample positions df
  let train := pandasDrop (val.map Prod.fst) df
  (train, val)

/-- `pd.read_csv` (line 62): the loaded dataframe carries the default
range index 0, 1, 2, … — its labels are always pairwise distinct. -/
def readCsv (rows : List α) : List (ℕ × α) := rows.enum

/-- The number of validation rows `DataFrame.sample(frac=0.15)` draws
from `n` rows: Python's `round(0.15 * n)`, i.e. banker's rounding
(round half to even) of the exact rational `3n/20`, written out over the
numerator `3n` and denominator `20`. -/
def sampleCount (n : ℕ) : ℕ :=
  if 3 * n % 20 < 10 then 3 * n / 20
  else if 10 < 3 * n % 20 then 3 * n / 20 + 1
  else if 3 * n / 20 % 2 = 0 then 3 * n / 20 else 3 * n / 20 + 1

theorem pandasSample_length {df : List (ℕ × α)} :
    ∀ {positions : List ℕ}, (∀ p ∈ positions, p < df.length) →
      (pandasSample positions df).length = positions.length := by
  intro positions
  induction positions with
  | nil => intro _; rfl
  | cons p ps ih =>
    intro hb
    have hp : p < df.length := hb p (List.mem_cons_self p ps)
    unfold pandasSample
    rw [List.filterMap_cons, List.get?_eq_get hp]
    simp only [List.length_cons]
    rw [show (ps.filterMap fun p => df.get? p) = pandasSample ps df from rfl,
      ih (fun q hq => hb q (List.mem_cons_of_mem p hq))]

theorem pandasSample_subset {df : List (ℕ × α)} {positions : List ℕ} {x : ℕ × α}
    (hx : x ∈ pandasSample positions df) : x ∈ df := by
  rcases List.mem_filterMap.mp hx with ⟨p, _, hp⟩
  exact List.get?_mem hp

theorem label_inj {df : List (ℕ × α)} (hl : (df.map Prod.fst).Nodup)
    {p q : ℕ} (hp : p < df.length) (hq : q < df.length)
    (h : (df[p]).1 = (df[q]).1) : p = q := by
  have hp' : p < (df.map Prod.fst).length := by simpa using hp
  have hq' : q < (df.map Prod.fst).length := by simpa using hq
  have h2 : (df.map Prod.fst)[p] = (df.map Prod.fst)[q] := by
    simpa [List.getElem_map] using h
  exact (List.Nodup.getElem_inj_iff hl).mp h2

theorem mem_pandasSample_label {df : List (ℕ × α)} {positions : List ℕ} {y : ℕ}
    (hy : y ∈ (pandasSample positions df).map Prod.fst) :
    ∃ q, ∃ hq : q < df.length, q ∈ positions ∧ y = (df[q]).1 := by
  rcases List.mem_map.mp hy with ⟨x, hx, hxy⟩
  rcases List.mem_filterMap.mp hx with ⟨q, hqmem, hqget⟩
  have hq : q < df.length := by
    by_contra hge
    rw [List.get?_eq_none.mpr (Nat.le_of_not_lt hge)] at hqget
    cases hqget
  rw [List.get?_eq_get hq] at hqget
  refine ⟨q, hq, hqmem, ?_⟩
  have : x = df[q] := by
    have := hqget
    simp only [Option.some_inj] at this
    exact this.symm
  rw [← hxy, this]

theorem pandasSample_labels_nodup {df : List (ℕ × α)} (hl : (df.map Prod.fst).Nodup) :
    ∀ {positions : List ℕ}, positions.Nodup → (∀ p ∈ positions, p < df.length) →
      ((pandasSample positions df).map Prod.fst).Nodup := by
  intro positions
  induction positions with
  | nil => intro _ _; exact List.nodup_nil
  | cons p ps ih =>
    intro hnd hb
    have hp : p < df.length := hb p (List.mem_cons_self p ps)
    have hrest : ((pandasSample ps df).map Prod.fst).Nodup :=
      ih (List.Nodup.of_cons hnd) (fun q hq => hb q (List.mem_cons_of_mem p hq))
    have hstep : pandasSample (p :: ps) df = df[p] :: pandasSample ps df := by
      unfold pandasSample
      rw [List.filterMap_cons, List.get?_eq_get hp]
      rfl
    rw [hstep, List.map_cons]
    refine List.nodup_cons.mpr ⟨?_, hrest⟩
    intro hmem
    rcases mem_pandasSample_label hmem with ⟨q, hq, hqps, hlab⟩
    have : p = q := label_inj hl hp hq hlab
    rw [this] at hnd
    exact (List.nodup_cons.mp hnd).1 hqps

theorem count_mem_labels {L S : List ℕ} (hL : L.Nodup) (hS : S.Nodup)
    (hsub : ∀ s ∈ S, s ∈ L) :
    L.countP (fun x => decide (x ∈ S)) = S.length := by
  rw [List.countP_eq_length_filter]
  have hfil : (L.filter (fun x => decide (x ∈ S))).Perm S := by
    apply (List.perm_ext_iff_of_nodup (List.Nodup.filter _ hL) hS).mpr
    intro a
    simp only [List.mem_filter, decide_eq_true_eq]
    exact ⟨fun h => h.2, fun h => ⟨hsub a h, h⟩⟩
  exact hfil.length_eq

theorem pandasDrop_length {df : List (ℕ × α)} {S : List ℕ}
    (hl : (df.map Prod.fst).Nodup) (hS : S.Nodup)
    (hsub : ∀ s ∈ S, s ∈ df.map Prod.fst) :
    (pandasDrop S df).length = df.length - S.length := by
  unfold pandasDrop
  rw [← List.countP_eq_length_filter]
  have hin : df.countP (fun r => decide (r.1 ∈ S)) = S.length := by
    have h1 : df.countP (fun r => decide (r.1 ∈ S))
        = (df.map Prod.fst).countP (fun x => decide (x ∈ S)) := by
      rw [List.countP_map]; rfl
    rw [h1]
    exact count_mem_labels hl hS hsub
  have htot := List.length_eq_countP_add_countP (p := fun r : ℕ × α => decide (r.1 ∈ S)) df
  have hcongr : df.countP (fun a => ¬ (fun r : ℕ × α => decide (r.1 ∈ S)) a)
      = df.countP (fun r => decide (r.1 ∉ S)) := by
    apply List.countP_congr; intro a _; simp
  rw [hcongr, hin] at htot
  omega

theorem mem_train_iff {df : List (ℕ × α)} {positions : List ℕ} {r : ℕ × α} :
    r ∈ (pandasSplit positions df).1 ↔
      r ∈ df ∧ r.1 ∉ (pandasSplit positions df).2.map Prod.fst := by
  show r ∈ df.filter (fun r => decide (r.1 ∉ (pandasSample positions df).map Prod.fst)) ↔
    r ∈ df ∧ r.1 ∉ (pandasSample positions df).map Prod.fst
  simp only [List.mem_filter, decide_eq_true_eq]

theorem getElem_mem_pandasSample {df : List (ℕ × α)} {positions : List ℕ} {q : ℕ}
    (hq : q < df.length) (hmem : q ∈ positions) :
    df[q] ∈ pandasSample positions df := by
  exact List.mem_filterMap.mpr ⟨q, hmem, by rw [List.get?_eq_get hq, List.get_eq_getElem]⟩

theorem members_eq_of_label {df : List (ℕ × α)} (hl : (df.map Prod.fst).Nodup)
    {a b : ℕ × α} (ha : a ∈ df) (hb : b ∈ df) (hab : a.1 = b.1) : a = b := by
  rcases List.mem_iff_getElem.mp ha with ⟨i, hi, hia⟩
  rcases List.mem_iff_getElem.mp hb with ⟨j, hj, hjb⟩
  have : i = j := label_inj hl hi hj (by rw [hia, hjb]; exact hab)
  subst this
  rw [← hia, ← hjb]

theorem pandasSample_label_subset {df : List (ℕ × α)} {positions : List ℕ} :
    ∀ s ∈ (pandasSample positions df).map Prod.fst, s ∈ df.map Prod.fst := by
  intro s hs
  rcases mem_pandasSample_label hs with ⟨q, hq, _, hlab⟩
  rw [hlab]
  exact List.mem_map_of_mem Prod.fst (List.getElem_mem hq)

theorem split_sizes {df : List (ℕ × α)} {positions : List ℕ}
    (hl : (df.map Prod.fst).Nodup) (hnd : positions.Nodup)
    (hb : ∀ p ∈ positions, p < df.length) :
    (pandasSplit positions df).1.length + (pandasSplit positions df).2.length = df.length := by
  have hVL : ((pandasSample positions df).map Prod.fst).Nodup :=
    pandasSample_labels_nodup hl hnd hb
  have hdrop : (pandasSplit positions df).1.length
      = df.length - ((pandasSample positions df).map Prod.fst).length :=
    pandasDrop_length hl hVL pandasSample_label_subset
  have hle : ((pandasSample positions df).map Prod.fst).length ≤ (df.map Prod.fst).length :=
    (List.Nodup.subperm hVL pandasSample_label_subset).length_le
  have h2 : (pandasSplit positions df).2.length = (pandasSample positions df).length := rfl
  rw [hdrop, h2]
  rw [List.length_map] at hdrop hle ⊢
  rw [List.length_map] at hle
  omega

/-- The validation rows and the training rows are label-disjoint (this
needs no hypotheses: `drop` removes every sampled label). -/
theorem split_disjoint {df : List (ℕ × α)} {positions : List ℕ} :
    ∀ x, x ∈ (pandasSplit positions df).1 → x ∉ (pandasSplit positions df).2 := by
  intro x hx hxv
  have h1 := (mem_train_iff.mp hx).2
  exact h1 (List.mem_map_of_mem Prod.fst hxv)

/-- **C3.** The train/validation split of the loaded CSV (whose range
index is always duplicate-free) is deterministic — the sampler is a pure
function of the seed, so re-splitting the same table with the same drawn
positions gives the same partitions — the partitions are disjoint, their
sizes sum to the total row count, and the validation partition holds
`round(0.15 * N)` rows, the pandas meaning of "15% of the rows". -/
theorem c3_split_deterministic_disjoint_sizes (rows : List α) (positions : List ℕ)
    (hnd : positions.Nodup) (hb : ∀ p ∈ positions, p < rows.length)
    (hc : positions.length = sampleCount rows.length) :
    pandasSplit positions (readCsv rows) = pandasSplit positions (readCsv rows) ∧
    (∀ x, x ∈ (pandasSplit positions (readCsv rows)).1 →
      x ∉ (pandasSplit positions (readCsv rows)).2) ∧
    (pandasSplit positions (readCsv rows)).1.length
      + (pandasSplit positions (readCsv rows)).2.length = rows.length ∧
    (pandasSplit positions (readCsv rows)).2.length = sampleCount rows.length := by
  have hlen : (readCsv rows).length = rows.length := by
    simp [readCsv]
  have hl : ((readCsv rows).map Prod.fst).Nodup := List.nodup_enum_map_fst rows
  have hb' : ∀ p ∈ positions, p < (readCsv rows).length := by
    intro p hp; rw [hlen]; exact hb p hp
  refine ⟨rfl, split_disjoint, ?_, ?_⟩
  · rw [split_sizes hl hnd hb', hlen]
  · show (pandasSample positions (readCsv rows)).length = sampleCount rows.length
    rw [pandasSample_length hb', hc]

/-- Witness for C3: a 20-row table, for which pandas draws
`round(0.15 * 20) = 3` validation positions. -/
theorem c3_split_deterministic_disjoint_sizes_witness :
    pandasSplit [4, 17, 0] (readCsv (List.range 20))
      = pandasSplit [4, 17, 0] (readCsv (List.range 20)) ∧
    (∀ x, x ∈ (pandasSplit [4, 17, 0] (readCsv (List.range 20))).1 →
      x ∉ (pandasSplit [4, 17, 0] (readCsv (List.range 20))).2) ∧
    (pandasSplit [4, 17, 0] (readCsv (List.range 20))).1.length
      + (pandasSplit [4, 17, 0] (readCsv (List.range 20))).2.length = (List.range 20).length ∧
    (pandasSplit [4, 17, 0] (readCsv (List.range 20))).2.length
      = sampleCount (List.range 20).length :=
  c3_split_deterministic_disjoint_sizes (List.range 20) [4, 17, 0]
    (by decide) (by decide) (by decide)

/-- **C10.** With pairwise-distinct index labels, the training partition
is exactly the complement of the sampled validation rows (disjointness
and `|train| + |val| = N` follow); unconditionally, the drop-by-index
construction removes every row whose label was sampled, so on a table
with duplicated labels extra rows disappear — witnessed by the concrete
two-row table with both labels 0, where the partition sizes sum to 1,
not 2.  Distinctness of the index is therefore a precondition for the
split invariant. -/
theorem c10_split_complement_requires_distinct_labels
    (df : List (ℕ × α)) (positions : List ℕ)
    (hl : (df.map Prod.fst).Nodup) (hnd : positions.Nodup)
    (hb : ∀ p ∈ positions, p < df.length) :
    (∀ r ∈ df, r ∈ (pandasSplit positions df).1 ↔ r ∉ (pandasSplit positions df).2) ∧
    (pandasSplit positions df).1.length + (pandasSplit positions df).2.length = df.length ∧
    (∀ (dg : List (ℕ × α)) (qs : List ℕ) (r : ℕ × α), r ∈ dg →
      r.1 ∈ (pandasSplit qs dg).2.map Prod.fst → r ∉ (pandasSplit qs dg).1) ∧
    ((pandasSplit [0] [((0 : ℕ), (10 : ℕ)), (0, 20)]).1.length
      + (pandasSplit [0] [((0 : ℕ), (10 : ℕ)), (0, 20)]).2.length ≠ 2) := by
  refine ⟨?_, split_sizes hl hnd hb, ?_, by decide⟩
  · intro r hr
    constructor
    · intro ht hv
      exact (mem_train_iff.mp ht).2 (List.mem_map_of_mem Prod.fst hv)
    · intro hv
      refine mem_train_iff.mpr ⟨hr, ?_⟩
      intro hlab
      rcases mem_pandasSample_label hlab with ⟨q, hq, hqmem, hlab'⟩
      have hqval : df[q] ∈ (pandasSplit positions df).2 :=
        getElem_mem_pandasSample hq hqmem
      have : r = df[q] :=
        members_eq_of_label hl hr (List.getElem_mem hq) hlab'
      rw [this] at hv
      exact hv hqval
  · intro dg qs r _ hlab ht
    exact (mem_train_iff.mp ht).2 hlab

/-- Witness for C10 at a two-row table with distinct labels, sampling
position 1. -/
theorem c10_split_complement_requires_distinct_labels_witness :
    (∀ r ∈ [((0 : ℕ), (10 : ℕ)), (1, 20)],
      r ∈ (pandasSplit [1] [((0 : ℕ), (10 : ℕ)), (1, 20)]).1 ↔
      r ∉ (pandasSplit [1] [((0 : ℕ), (10 : ℕ)), (1, 20)]).2) ∧
    (pandasSplit [1] [((0 : ℕ), (10 : ℕ)), (1, 20)]).1.length
      + (pandasSplit [1] [((0 : ℕ), (10 : ℕ)), (1, 20)]).2.length
      = [((0 : ℕ), (10 : ℕ)), (1, 20)].length ∧
    (∀ (dg : List (ℕ × ℕ)) (qs : List ℕ) (r : ℕ × ℕ), r ∈ dg →
      r.1 ∈ (pandasSplit qs dg).2.map Prod.fst → r ∉ (pandasSplit qs dg).1) ∧
    ((pandasSplit [0] [((0 : ℕ), (10 : ℕ)), (0, 20)]).1.length
      + (pandasSplit [0] [((0 : ℕ), (10 : ℕ)), (0, 20)]).2.length ≠ 2) :=
  c10_split_complement_requires_distinct_labels [((0 : ℕ), (10 : ℕ)), (1, 20)] [1]
    (by decide) (by decide) (by decide)

/-! ## The dataset wrapper (`dataframe_to_dataset`, lines 96-101, and
`batch(32)`, lines 120-121)

A dataframe row is an association list from column name to value; the
heap of pandas DataFrame objects is a store indexed by naturals, so that
the in-place mutation done by `DataFrame.pop` on the copy can be told
apart from the caller's object. -/

/-- One dataframe row: column name to cell value. -/
abbrev Row := List (String × ℚ)

/-- A dataframe's rows (the part `tf.data` consumes). -/
abbrev DF := List Row

/-- The heap of DataFrame objects; a reference is an index. -/
abbrev Store := List DF

/-- Dereference a DataFrame object. -/
def storeGet (s : Store) (r : ℕ) : DF := s.getD r []

/-- Overwrite a DataFrame object in place. -/
def storeSet (s : Store) (r : ℕ) (df : DF) : Store := s.set r df

/-- `DataFrame.copy()` (line 97): allocate a fresh object holding the
same rows and return its reference. -/
def dfCopy (s : Store) (r : ℕ) : Store × ℕ := (s ++ [storeGet s r], s.length)

/-- `DataFrame.pop(name)` (line 98): delete the column `name` from the
referenced object in place and return the removed column (one value per
row, `none` where the key is absent). -/
def dfPop (s : Store) (r : ℕ) (name : String) : Store × List (Option ℚ) :=
  (storeSet s r ((storeGet s r).map (fun row => row.filter (fun kv => decide (kv.1 ≠ name)))),
   (storeGet s r).map (fun row => row.lookup name))

/-- One streaming state of `tf.data.Dataset.shuffle`: the buffer, the
not-yet-buffered remainder, and the stream of drawn buffer indices.  Each
step emits the buffer element at the drawn index (reduced mod the buffer
size) and refills the freed slot from the remainder; where the slot sits
inside the buffer is immaterial to what is emitted over time, so the
model appends the refill.  When the index stream ends the remaining
elements are flushed in order. -/
def shuffleGo : List ℕ → List α → List α → List α
  | [], buf, rest => buf ++ rest
  | _ :: _, [], rest => rest
  | c :: cs, b :: bs, rest =>
    (b :: bs).getD (c % (b :: bs).length) b ::
      shuffleGo cs (((b :: bs).eraseIdx (c % (b :: bs).length)) ++ rest.take 1) (rest.drop 1)

/-- `Dataset.shuffle(buffer_size=B)` (line 100): fill the buffer with the
first `B` elements and stream the rest through it. -/
def tfShuffle (B : ℕ) (choices : List ℕ) (xs : List α) : List α :=
  shuffleGo choices (xs.take B) (xs.drop B)

/-- `dataframe_to_dataset` (lines 96-101): copy the dataframe, pop the
`"Bot_or_Not"` column off the copy, pair each remaining feature row with
its label, and shuffle with `buffer_size = len(dataframe)`.  Returns the
final store and the yielded (feature-mapping, label) pairs. -/
def dataframe_to_dataset (choices : List ℕ) (s : Store) (r : ℕ) :
    Store × List (Row × Option ℚ) :=
  let c := dfCopy s r
  let p := dfPop c.1 c.2 "Bot_or_Not"
  let feats := storeGet p.1 c.2
  (p.1, tfShuffle feats.length choices (feats.zip p.2))

/-- `Dataset.batch(32)` (lines 120-121): consecutive groups of 32. -/
def batch32 (xs : List α) : List (List α) :=
  (List.range ((xs.length + 31) / 32)).map (fun i => (xs.drop (32 * i)).take 32)

/-- The (feature-mapping, label) pairs of a dataframe before shuffling:
each row with the label column filtered out, paired with its label. -/
def dsPairs (df : DF) : List (Row × Option ℚ) :=
  (df.map (fun row => row.filter (fun kv => decide (kv.1 ≠ "Bot_or_Not")))).zip
    (df.map (fun row => row.lookup "Bot_or_Not"))

theorem cons_getElem_eraseIdx_perm :
    ∀ (l : List α) (i : ℕ) (hi : i < l.length), (l[i] :: l.eraseIdx i).Perm l := by
  intro l
  induction l with
  | nil => intro i hi; cases hi
  | cons x xs ih =>
    intro i hi
    cases i with
    | zero => exact List.Perm.refl _
    | succ j =>
      have hj : j < xs.length := Nat.lt_of_succ_lt_succ hi
      show (xs[j] :: x :: xs.eraseIdx j).Perm (x :: xs)
      exact (List.Perm.swap x (xs[j]) (xs.eraseIdx j)).trans ((ih j hj).cons x)

theorem shuffleGo_perm :
    ∀ (cs : List ℕ) (buf rest : List α), (shuffleGo cs buf rest).Perm (buf ++ rest) := by
  intro cs
  induction cs with
  | nil => intro buf rest; exact List.Perm.refl _
  | cons c cs ih =>
    intro buf rest
    cases buf with
    | nil => exact List.Perm.refl _
    | cons b bs =>
      have hlt : c % (b :: bs).length < (b :: bs).length :=
        Nat.mod_lt _ (by simp)
      show ((b :: bs).getD (c % (b :: bs).length) b ::
          shuffleGo cs (((b :: bs).eraseIdx (c % (b :: bs).length)) ++ rest.take 1)
            (rest.drop 1)).Perm ((b :: bs) ++ rest)
      refine ((ih _ _).cons _).trans ?_
      rw [List.append_assoc, List.take_append_drop]
      show (((b :: bs).getD (c % (b :: bs).length) b ::
          ((b :: bs).eraseIdx (c % (b :: bs).length))) ++ rest).Perm ((b :: bs) ++ rest)
      refine List.Perm.append_right rest ?_
      rw [List.getD_eq_getElem _ _ hlt]
      exact cons_getElem_eraseIdx_perm _ _ hlt

theorem tfShuffle_perm (B : ℕ) (choices : List ℕ) (xs : List α) :
    (tfShuffle B choices xs).Perm xs := by
  unfold tfShuffle
  refine (shuffleGo_perm choices _ _).trans ?_
  rw [List.take_append_drop]

theorem shuffleGo_reachable [DecidableEq α] :
    ∀ (ys buf : List α), buf.Perm ys → ∃ cs, shuffleGo cs buf [] = ys := by
  intro ys
  induction ys with
  | nil =>
    intro buf h
    refine ⟨[], ?_⟩
    rw [List.Perm.eq_nil h]
    rfl
  | cons y ys ih =>
    intro buf h
    have hy : y ∈ buf := h.mem_iff.mpr (List.mem_cons_self y ys)
    cases buf with
    | nil => cases hy
    | cons b bs =>
      have hi : (b :: bs).indexOf y < (b :: bs).length := List.indexOf_lt_length.mpr hy
      have hmod : (b :: bs).indexOf y % (b :: bs).length = (b :: bs).indexOf y :=
        Nat.mod_eq_of_lt hi
      have hget : (b :: bs)[(b :: bs).indexOf y] = y := List.getElem_indexOf hi
      have hperm : ((b :: bs).eraseIdx ((b :: bs).indexOf y)).Perm ys := by
        have h1 := cons_getElem_eraseIdx_perm (b :: bs) ((b :: bs).indexOf y) hi
        rw [hget] at h1
        exact (h1.trans h).cons_inv
      rcases ih _ hperm with ⟨cs, hcs⟩
      refine ⟨(b :: bs).indexOf y :: cs, ?_⟩
      show (b :: bs).getD ((b :: bs).indexOf y % (b :: bs).length) b ::
          shuffleGo cs (((b :: bs).eraseIdx ((b :: bs).indexOf y % (b :: bs).length))
            ++ List.take 1 []) (List.drop 1 []) = y :: ys
      rw [hmod]
      simp only [List.take_nil, List.drop_nil, List.append_nil]
      rw [List.getD_eq_getElem _ _ hi, hget, hcs]

theorem tfShuffle_reachable [DecidableEq α] {B : ℕ} {xs ys : List α}
    (hB : xs.length ≤ B) (h : ys.Perm xs) : ∃ cs, tfShuffle B cs xs = ys := by
  unfold tfShuffle
  rw [List.take_of_length_le hB, List.drop_eq_nil_of_le hB]
  exact shuffleGo_reachable ys xs h.symm

theorem batch32_length (xs : List α) : (batch32 xs).length = (xs.length + 31) / 32 := by
  simp [batch32]

theorem batch32_mem_size {xs : List α} {b : List α} (hb : b ∈ batch32 xs) :
    0 < b.length ∧ b.length ≤ 32 := by
  unfold batch32 at hb
  rcases List.mem_map.mp hb with ⟨i, hi, rfl⟩
  have hi' : i < (xs.length + 31) / 32 := List.mem_range.mp hi
  have h2 : (i + 1) * 32 ≤ xs.length + 31 :=
    (Nat.le_div_iff_mul_le (by norm_num)).mp hi'
  simp only [List.length_take, List.length_drop]
  omega

theorem batch32_full (xs : List α) (i : ℕ) (h : i + 1 < (batch32 xs).length) :
    ((batch32 xs).getD i []).length = 32 := by
  rw [batch32_length] at h
  have h2 : (i + 2) * 32 ≤ xs.length + 31 :=
    (Nat.le_div_iff_mul_le (by norm_num)).mp h
  have hlt : i < ((List.range ((xs.length + 31) / 32)).map
      (fun i => (xs.drop (32 * i)).take 32)).length := by
    simp only [List.length_map, List.length_range]
    omega
  unfold batch32
  rw [List.getD_eq_getElem _ _ hlt]
  rw [List.getElem_map, List.getElem_range]
  simp only [List.length_take, List.length_drop]
  omega

theorem storeGet_storeSet_self {s : Store} {i : ℕ} {v : DF} (h : i < s.length) :
    storeGet (storeSet s i v) i = v := by
  unfold storeGet storeSet
  rw [List.getD_eq_getElem?_getD, List.getElem?_set_self (by simpa using h)]
  rfl

theorem storeGet_storeSet_ne {s : Store} {i j : ℕ} {v : DF} (h : i ≠ j) :
    storeGet (storeSet s i v) j = storeGet s j := by
  unfold storeGet storeSet
  rw [List.getD_eq_getElem?_getD, List.getElem?_set_ne h, ← List.getD_eq_getElem?_getD]

theorem storeGet_append_singleton_self (s : Store) (d : DF) :
    storeGet (s ++ [d]) s.length = d := by
  unfold storeGet
  rw [List.getD_eq_getElem?_getD, List.getElem?_append_right (Nat.le_refl _)]
  simp

theorem storeGet_append_singleton_lt {s : Store} {d : DF} {i : ℕ} (h : i < s.length) :
    storeGet (s ++ [d]) i = storeGet s i := by
  unfold storeGet
  rw [List.getD_eq_getElem?_getD, List.getElem?_append_left h, ← List.getD_eq_getElem?_getD]

/-- The dataset yielded by `dataframe_to_dataset` is the shuffle, with
buffer as large as the partition, of the label-stripped row/label pairs
of the dataframe passed in. -/
theorem dataframe_to_dataset_snd (choices : List ℕ) (s : Store) (r : ℕ) :
    (dataframe_to_dataset choices s r).2
      = tfShuffle (storeGet s r).length choices (dsPairs (storeGet s r)) := by
  simp only [dataframe_to_dataset, dfCopy, dfPop]
  have hlt : s.length < (s ++ [storeGet s r]).length := by simp
  rw [storeGet_append_singleton_self s (storeGet s r)]
  rw [storeGet_storeSet_self hlt]
  rw [show ((storeGet s r).map
      (fun row => row.filter (fun kv => decide (kv.1 ≠ "Bot_or_Not")))).zip
      ((storeGet s r).map (fun row => row.lookup "Bot_or_Not"))
      = dsPairs (storeGet s r) from rfl]
  rw [List.length_map]

/-- The final store of `dataframe_to_dataset`. -/
theorem dataframe_to_dataset_fst (choices : List ℕ) (s : Store) (r : ℕ) :
    (dataframe_to_dataset choices s r).1
      = storeSet (s ++ [storeGet s r]) s.length
          ((storeGet s r).map (fun row => row.filter (fun kv => decide (kv.1 ≠ "Bot_or_Not")))) := by
  simp only [dataframe_to_dataset, dfCopy, dfPop]
  rw [storeGet_append_singleton_self s (storeGet s r)]

theorem mem_dsPairs {df : DF} {p : Row × Option ℚ} (hp : p ∈ dsPairs df) :
    ∃ row ∈ df, p.1 = row.filter (fun kv => decide (kv.1 ≠ "Bot_or_Not")) ∧
      p.2 = row.lookup "Bot_or_Not" := by
  unfold dsPairs at hp
  rw [List.zip_map'] at hp
  rcases List.mem_map.mp hp with ⟨row, hrow, heq⟩
  exact ⟨row, hrow, by rw [← heq], by rw [← heq]⟩

theorem label_not_in_stripped (row : Row) :
    "Bot_or_Not" ∉ (row.filter (fun kv => decide (kv.1 ≠ "Bot_or_Not"))).map Prod.fst := by
  intro h
  rcases List.mem_map.mp h with ⟨kv, hkv, hfst⟩
  have hne := (List.mem_filter.mp hkv).2
  rw [decide_eq_true_eq] at hne
  exact hne hfst

/-- **C9.** `dataframe_to_dataset` does not mutate its argument: because
line 97 copies the dataframe before line 98 pops the label column, every
object that existed before the call — in particular the caller's
dataframe, with its `"Bot_or_Not"` column and all rows — is unchanged in
the final store; and each yielded pair is a feature mapping without the
label key together with that row's label value. -/
theorem c9_dataframe_to_dataset_frame (choices : List ℕ) (s : Store) (r : ℕ) :
    (∀ i, i < s.length →
      storeGet (dataframe_to_dataset choices s r).1 i = storeGet s i) ∧
    (∀ p, p ∈ (dataframe_to_dataset choices s r).2 →
      "Bot_or_Not" ∉ p.1.map Prod.fst ∧
      ∃ row ∈ storeGet s r,
        p.1 = row.filter (fun kv => decide (kv.1 ≠ "Bot_or_Not")) ∧
        p.2 = row.lookup "Bot_or_Not") := by
  constructor
  · intro i hi
    rw [dataframe_to_dataset_fst]
    rw [storeGet_storeSet_ne (Ne.symm (ne_of_lt hi))]
    exact storeGet_append_singleton_lt hi
  · intro p hp
    rw [dataframe_to_dataset_snd] at hp
    have hp' : p ∈ dsPairs (storeGet s r) := (tfShuffle_perm _ _ _).mem_iff.mp hp
    rcases mem_dsPairs hp' with ⟨row, hrow, h1, h2⟩
    refine ⟨?_, row, hrow, h1, h2⟩
    rw [h1]
    exact label_not_in_stripped row

/-- A one-row store used to witness the dataset-wrapper claims. -/
def exampleRow : Row := [("followers", 1), ("Bot_or_Not", 0)]

/-- The store holding the single example dataframe at reference 0. -/
def exampleStore : Store := [[exampleRow]]

/-- Witness for C9: the caller's dataframe at reference 0 is unchanged
and the single yielded pair is the stripped row with its label. -/
theorem c9_dataframe_to_dataset_frame_witness :
    storeGet (dataframe_to_dataset [] exampleStore 0).1 0 = storeGet exampleStore 0 ∧
    ("Bot_or_Not" ∉ (([("followers", (1 : ℚ))], (some (0 : ℚ) : Option ℚ)) :
        Row × Option ℚ).1.map Prod.fst ∧
      ∃ row ∈ storeGet exampleStore 0,
        (([("followers", (1 : ℚ))], (some (0 : ℚ) : Option ℚ)) : Row × Option ℚ).1
          = row.filter (fun kv => decide (kv.1 ≠ "Bot_or_Not")) ∧
        (([("followers", (1 : ℚ))], (some (0 : ℚ) : Option ℚ)) : Row × Option ℚ).2
          = row.lookup "Bot_or_Not") :=
  ⟨(c9_dataframe_to_dataset_frame [] exampleStore 0).1 0 (by decide),
   (c9_dataframe_to_dataset_frame [] exampleStore 0).2
     ([("followers", (1 : ℚ))], (some (0 : ℚ) : Option ℚ)) (by decide)⟩

/-- **C7.** The wrapper shuffles with `buffer_size = len(dataframe)`, a
buffer covering the entire partition: the yielded sequence is a
permutation of the partition's (feature-mapping, label) pairs, and every
permutation of those pairs is reachable for some draw of the buffer
indices (a full permutation, not a sliding window).  Batching by 32 then
yields `⌈N/32⌉` batches; every batch is nonempty with at most 32 rows —
so each per-feature column and the label column of a batch hold at most
32 values — and every batch except possibly the last holds exactly 32. -/
theorem c7_full_buffer_shuffle_and_batching (choices : List ℕ) (s : Store) (r : ℕ) :
    (dataframe_to_dataset choices s r).2.Perm (dsPairs (storeGet s r)) ∧
    (∀ ys, ys.Perm (dsPairs (storeGet s r)) →
      ∃ cs, (dataframe_to_dataset cs s r).2 = ys) ∧
    (batch32 (dataframe_to_dataset choices s r).2).length
      = ((storeGet s r).length + 31) / 32 ∧
    (∀ b ∈ batch32 (dataframe_to_dataset choices s r).2,
      0 < b.length ∧ b.length ≤ 32 ∧
      (∀ name : String, (b.map (fun p => p.1.lookup name)).length = b.length) ∧
      (b.map Prod.snd).length = b.length) ∧
    (∀ i, i + 1 < (batch32 (dataframe_to_dataset choices s r).2).length →
      ((batch32 (dataframe_to_dataset choices s r).2).getD i []).length = 32) := by
  have hperm : (dataframe_to_dataset choices s r).2.Perm (dsPairs (storeGet s r)) := by
    rw [dataframe_to_dataset_snd]
    exact tfShuffle_perm _ _ _
  have hdslen : (dataframe_to_dataset choices s r).2.length = (storeGet s r).length := by
    rw [hperm.length_eq]
    simp [dsPairs]
  refine ⟨hperm, ?_, ?_, ?_, ?_⟩
  · intro ys hys
    have hlen : (dsPairs (storeGet s r)).length ≤ (storeGet s r).length := by
      simp [dsPairs]
    rcases tfShuffle_reachable hlen hys with ⟨cs, hcs⟩
    exact ⟨cs, by rw [dataframe_to_dataset_snd, hcs]⟩
  · rw [batch32_length, hdslen]
  · intro b hb
    have h := batch32_mem_size hb
    exact ⟨h.1, h.2, fun name => by simp, by simp⟩
  · intro i hi
    exact batch32_full _ i hi

/-- Witness for C7 at the one-row example store: the single yielded pair
forms one batch of size 1. -/
theorem c7_full_buffer_shuffle_and_batching_witness :
    (dataframe_to_dataset [] exampleStore 0).2.Perm (dsPairs (storeGet exampleStore 0)) ∧
    (batch32 (dataframe_to_dataset [] exampleStore 0).2).length
      = ((storeGet exampleStore 0).length + 31) / 32 ∧
    (0 < [(([("followers", (1 : ℚ))], (some (0 : ℚ) : Option ℚ)) : Row × Option ℚ)].length ∧
      [(([("followers", (1 : ℚ))], (some (0 : ℚ) : Option ℚ)) : Row × Option ℚ)].length ≤ 32 ∧
      (∀ name : String,
        ([(([("followers", (1 : ℚ))], (some (0 : ℚ) : Option ℚ)) : Row × Option ℚ)].map
          (fun p => p.1.lookup name)).length
          = [(([("followers", (1 : ℚ))], (some (0 : ℚ) : Option ℚ)) : Row × Option ℚ)].length) ∧
      ([(([("followers", (1 : ℚ))], (some (0 : ℚ) : Option ℚ)) : Row × Option ℚ)].map
        Prod.snd).length
        = [(([("followers", (1 : ℚ))], (some (0 : ℚ) : Option ℚ)) : Row × Option ℚ)].length) :=
  ⟨(c7_full_buffer_shuffle_and_batching [] exampleStore 0).1,
   (c7_full_buffer_shuffle_and_batching [] exampleStore 0).2.2.1,
   (c7_full_buffer_shuffle_and_batching [] exampleStore 0).2.2.2.1
     [(([("followers", (1 : ℚ))], (some (0 : ℚ) : Option ℚ)) : Row × Option ℚ)] (by decide)⟩

/-! ## Encoder wiring and adaptation (lines 248-261)

Each `encode_*` call adapts a fresh layer on one column of `train_ds`
(the mapped dataset `x[name]`, lines 160/204) and attaches it to one
model input slot.  The adapted state of a `Normalization` layer is its
(mean, variance) pair; the state of a `CategoryEncoding` layer is
determined by the maximum observed code (`num_tokens = max + 1`), so the
raw column maximum is recorded here. -/

/-- The column `x[name]` a feature encoder reads from a dataset of
feature mappings (absent keys read as 0; the CSV supplies every key). -/
def colOf (name : String) (df : DF) : List ℚ :=
  df.map (fun row => (row.lookup name).getD 0)

/-- The determining state of `CategoryEncoding.adapt` over a raw column:
the maximum observed value (the learned width is this plus one). -/
def categoryEncodingAdaptCol (xs : List ℚ) : ℚ := xs.foldr max 0

/-- The adapted states of all eight feature encoders, one field per
model input slot. -/
structure EncoderStates where
  followersState : ℚ × ℚ
  followingState : ℚ × ℚ
  creationDateState : ℚ × ℚ
  numberOfTweetsState : ℚ × ℚ
  retweetRatioState : ℚ × ℚ
  botScoreSlotState : ℚ × ℚ
  profilePictureState : ℚ
  tweetsPerDaySlotState : ℚ
  deriving DecidableEq

/-- Lines 248-261, encoder by encoder.  Line 249 adapts the encoder on
the `Tweets_Per_Day` input slot from the `"Bot_Score"` training column,
and line 261 adapts the encoder on the `Bot_Score` input slot from the
`"Tweets_Per_Day"` training column — the cross-wiring under claim C5. -/
def adaptAll (trainRows : DF) : EncoderStates where
  followersState := normalizationAdapt (colOf "followers" trainRows)
  followingState := normalizationAdapt (colOf "following" trainRows)
  creationDateState := normalizationAdapt (colOf "creation_date" trainRows)
  numberOfTweetsState := normalizationAdapt (colOf "number_of_tweets" trainRows)
  retweetRatioState := normalizationAdapt (colOf "Retweet_Ratio" trainRows)
  botScoreSlotState := normalizationAdapt (colOf "Tweets_Per_Day" trainRows)
  profilePictureState := categoryEncodingAdaptCol (colOf "Profile_picture" trainRows)
  tweetsPerDaySlotState := categoryEncodingAdaptCol (colOf "Bot_Score" trainRows)

/-- **C5.** In the model as built, the encoder attached to the
`Tweets_Per_Day` input slot is adapted from the `"Bot_Score"` training
column and the encoder attached to the `Bot_Score` input slot from the
`"Tweets_Per_Day"` training column (lines 249 and 261); this differs
from adapting each slot from its own column, as a concrete dataframe
shows. -/
theorem c5_encoder_cross_wiring (df : DF) :
    (adaptAll df).tweetsPerDaySlotState = categoryEncodingAdaptCol (colOf "Bot_Score" df) ∧
    (adaptAll df).botScoreSlotState = normalizationAdapt (colOf "Tweets_Per_Day" df) ∧
    (∃ dg : DF, (adaptAll dg).tweetsPerDaySlotState
        ≠ categoryEncodingAdaptCol (colOf "Tweets_Per_Day" dg) ∧
      (adaptAll dg).botScoreSlotState ≠ normalizationAdapt (colOf "Bot_Score" dg)) :=
  ⟨rfl, rfl, ⟨[[("Bot_Score", 3), ("Tweets_Per_Day", 0)]],
    by
      have hbeq : ("Tweets_Per_Day" == "Bot_Score") = false := by decide
      norm_num [adaptAll, categoryEncodingAdaptCol, colOf, List.lookup, hbeq],
    by
      have hbeq : ("Tweets_Per_Day" == "Bot_Score") = false := by decide
      norm_num [adaptAll, normalizationAdapt, listMean, listVar, colOf, Prod.ext_iff,
        List.lookup, hbeq]⟩⟩

theorem perm_foldr_max {l1 l2 : List ℚ} (h : l1.Perm l2) (e : ℚ) :
    l1.foldr max e = l2.foldr max e := by
  induction h with
  | nil => rfl
  | cons x _ ih => simp [List.foldr_cons, ih]
  | swap x y l => simp [List.foldr_cons, max_left_comm]
  | trans _ _ ih1 ih2 => exact ih1.trans ih2

theorem perm_listMean {l1 l2 : List ℚ} (h : l1.Perm l2) : listMean l1 = listMean l2 := by
  unfold listMean
  rw [h.sum_eq, h.length_eq]

theorem perm_listVar {l1 l2 : List ℚ} (h : l1.Perm l2) : listVar l1 = listVar l2 := by
  have hm := perm_listMean h
  unfold listVar
  rw [hm, (h.map (fun x => (x - listMean l2) * (x - listMean l2))).sum_eq, h.length_eq]

theorem perm_normalizationAdapt {l1 l2 : List ℚ} (h : l1.Perm l2) :
    normalizationAdapt l1 = normalizationAdapt l2 := by
  unfold normalizationAdapt
  rw [perm_listMean h, perm_listVar h]

theorem perm_colOf {d1 d2 : DF} (h : d1.Perm d2) (name : String) :
    (colOf name d1).Perm (colOf name d2) := h.map _

/-- The feature rows the adaptation pass consumes: the first components
of the pairs the training dataset yields. -/
def trainFeatureRows (choices : List ℕ) (s : Store) (r : ℕ) : DF :=
  ((dataframe_to_dataset choices s r).2).map Prod.fst

theorem trainFeatureRows_perm (choices : List ℕ) (s : Store) (r : ℕ) :
    (trainFeatureRows choices s r).Perm
      ((storeGet s r).map (fun row => row.filter (fun kv => decide (kv.1 ≠ "Bot_or_Not")))) := by
  unfold trainFeatureRows
  rw [dataframe_to_dataset_snd]
  refine ((tfShuffle_perm _ _ _).map Prod.fst).trans ?_
  rw [show (dsPairs (storeGet s r)).map Prod.fst
      = (storeGet s r).map (fun row => row.filter (fun kv => decide (kv.1 ≠ "Bot_or_Not")))
    from ?_]
  · unfold dsPairs
    rw [List.map_fst_zip]
    simp

/-- **C8.** Every encoder's adapted state is a function of the training
partition only: two runs whose training dataframes hold the same rows —
whatever their validation dataframes or shuffle draws — adapt all eight
encoders to identical states (the adaptation aggregates are invariant
under the shuffle, and no validation data enters any `encode_*` call).
The states are frozen values reused unchanged wherever the model is
applied. -/
theorem c8_encoder_states_training_only
    (s1 : Store) (r1 : ℕ) (c1 : List ℕ) (s2 : Store) (r2 : ℕ) (c2 : List ℕ)
    (h : storeGet s1 r1 = storeGet s2 r2) :
    adaptAll (trainFeatureRows c1 s1 r1) = adaptAll (trainFeatureRows c2 s2 r2) := by
  have k1 := trainFeatureRows_perm c1 s1 r1
  have k2 := trainFeatureRows_perm c2 s2 r2
  rw [h] at k1
  have hperm : (trainFeatureRows c1 s1 r1).Perm (trainFeatureRows c2 s2 r2) :=
    k1.trans k2.symm
  have hcol := fun name => perm_colOf hperm name
  unfold adaptAll
  simp only [EncoderStates.mk.injEq]
  refine ⟨?_, ?_, ?_, ?_, ?_, ?_, ?_, ?_⟩
  · exact perm_normalizationAdapt (hcol "followers")
  · exact perm_normalizationAdapt (hcol "following")
  · exact perm_normalizationAdapt (hcol "creation_date")
  · exact perm_normalizationAdapt (hcol "number_of_tweets")
  · exact perm_normalizationAdapt (hcol "Retweet_Ratio")
  · exact perm_normalizationAdapt (hcol "Tweets_Per_Day")
  · exact perm_foldr_max (hcol "Profile_picture") 0
  · exact perm_foldr_max (hcol "Bot_Score") 0

/-- Witness for C8: two stores sharing the training dataframe at
reference 0 but holding different validation dataframes, run with
different shuffle draws, adapt to the same states. -/
theorem c8_encoder_states_training_only_witness :
    adaptAll (trainFeatureRows [] [[exampleRow]] 0)
      = adaptAll (trainFeatureRows [0, 1] [[exampleRow], [[("v", 5)]]] 0) :=
  c8_encoder_states_training_only [[exampleRow]] 0 [] [[exampleRow], [[("v", 5)]]] 0 [0, 1]
    (by decide)

/-! ## The model input signature and inference (lines 221-245, 307-322) -/

/-- A tensor fed to `model.predict`: `tf.convert_to_tensor` (line 317)
turns a Python int into an integer tensor and a Python float into a
float tensor. -/
inductive TVal where
  | int (z : ℤ)
  | float (q : ℚ)
  deriving DecidableEq

/-- The dtype of a model input slot. -/
inductive DType where
  | int64
  | float32
  deriving DecidableEq

/-- The dtype of a supplied tensor. -/
def tvalDtype : TVal → DType
  | .int _ => .int64
  | .float _ => .float32

/-- `all_inputs` (lines 236-245): the model's eight input slots in
declared order with their dtypes — `Profile_picture` and `Bot_Score` are
declared `int64` (lines 221-222), the rest keep the float default
(lines 229-234). -/
def all_inputs : List (String × DType) :=
  [("followers", .float32),
   ("following", .float32),
   ("creation_date", .float32),
   ("number_of_tweets", .float32),
   ("Retweet_Ratio", .float32),
   ("Profile_picture", .int64),
   ("Tweets_Per_Day", .float32),
   ("Bot_Score", .int64)]

/-- An inference failure of `model.predict`. -/
inductive PredictError where
  | missingInput (name : String)
  | dtypeMismatch (name : String)
  deriving DecidableEq

/-- The first declared input slot the supplied mapping omits, if any. -/
def findMissingInput (inp : List (String × TVal)) : Option String :=
  (all_inputs.find? (fun nd => (inp.lookup nd.1).isNone)).map Prod.fst

/-- The first declared input slot supplied with a tensor of the wrong
dtype, if any. -/
def findDtypeMismatch (inp : List (String × TVal)) : Option String :=
  (all_inputs.find? (fun nd =>
    match inp.lookup nd.1 with
    | some v => decide (tvalDtype v ≠ nd.2)
    | none => false)).map Prod.fst

/-- `model.predict(input_dict)` (line 318): the functional model checks
the supplied mapping against its input signature — every declared input
name must be present with a tensor of the declared dtype, or the call
raises a shape/type error.  On success the trained network `forward`
(its fitted weights are a parameter of the embedding) produces the raw
sigmoid probability; no thresholding is applied to it. -/
def modelPredict (forward : List (String × TVal) → ℚ)
    (inp : List (String × TVal)) : Except PredictError ℚ :=
  match findMissingInput inp with
  | some n => .error (.missingInput n)
  | none =>
    match findDtypeMismatch inp with
    | some n => .error (.dtypeMismatch n)
    | none => .ok (forward inp)

/-- The hand-written inference example (lines 307-315), with the dtype
each scalar gets from `tf.convert_to_tensor` (line 317). -/
def sample : List (String × TVal) :=
  [("followers", .int 100),
   ("following", .int 50),
   ("creation_date", .int 2010),
   ("number_of_tweets", .int 800),
   ("Retweet_Ratio", .float (3 / 10)),
   ("Profile_picture", .int 1),
   ("Bot_Score", .int 5)]

/-- **C1 (code bug).** The model is built with eight inputs including
`Tweets_Per_Day` (line 243), but the example `sample` (lines 307-315)
omits that key, so for every trained network the inference call fails
with a missing-input error: the probability and the percentage print of
lines 320-322 — which the claim and the spec describe — are never
produced. -/
theorem c1_predict_sample_missing_input (forward : List (String × TVal) → ℚ) :
    modelPredict forward sample = .error (.missingInput "Tweets_Per_Day") ∧
    ("Tweets_Per_Day", DType.float32) ∈ all_inputs ∧
    sample.lookup "Tweets_Per_Day" = none :=
  ⟨rfl, by decide, by decide⟩

/-- **C6.** For every inference call: omitting any declared input name
fails with an error; supplying any declared input with a tensor of the
wrong numeric dtype fails with an error; and a complete, correctly typed
mapping returns the network's raw output unchanged — no thresholding is
applied to the probability. -/
theorem c6_predict_signature_validation (forward : List (String × TVal) → ℚ)
    (inp : List (String × TVal)) :
    (∀ nd ∈ all_inputs, inp.lookup nd.1 = none →
      ∃ e, modelPredict forward inp = .error e) ∧
    (∀ nd ∈ all_inputs, ∀ v, inp.lookup nd.1 = some v → tvalDtype v ≠ nd.2 →
      ∃ e, modelPredict forward inp = .error e) ∧
    ((∀ nd ∈ all_inputs, (inp.lookup nd.1).map tvalDtype = some nd.2) →
      modelPredict forward inp = .ok (forward inp)) := by
  refine ⟨?_, ?_, ?_⟩
  · intro nd hmem hnone
    cases hfm : findMissingInput inp with
    | some m =>
      exact ⟨.missingInput m, by unfold modelPredict; rw [hfm]⟩
    | none =>
      exfalso
      have hfind : all_inputs.find? (fun nd => (inp.lookup nd.1).isNone) = none :=
        Option.map_eq_none'.mp hfm
      have := List.find?_eq_none.mp hfind nd hmem
      rw [hnone] at this
      exact this rfl
  · intro nd hmem v hsome hne
    cases hfm : findMissingInput inp with
    | some m =>
      exact ⟨.missingInput m, by unfold modelPredict; rw [hfm]⟩
    | none =>
      cases hfd : findDtypeMismatch inp with
      | some m =>
        exact ⟨.dtypeMismatch m, by unfold modelPredict; rw [hfm, hfd]⟩
      | none =>
        exfalso
        have hfind : all_inputs.find? (fun nd =>
            match inp.lookup nd.1 with
            | some v => decide (tvalDtype v ≠ nd.2)
            | none => false) = none := Option.map_eq_none'.mp hfd
        have := List.find?_eq_none.mp hfind nd hmem
        rw [hsome] at this
        simp only [decide_eq_true_eq] at this
        exact this hne
  · intro hall
    have hfm : findMissingInput inp = none := by
      apply Option.map_eq_none'.mpr
      apply List.find?_eq_none.mpr
      intro nd hmem
      have := hall nd hmem
      cases hlk : inp.lookup nd.1 with
      | some v => simp
      | none => rw [hlk] at this; cases this
    have hfd : findDtypeMismatch inp = none := by
      apply Option.map_eq_none'.mpr
      apply List.find?_eq_none.mpr
      intro nd hmem
      have := hall nd hmem
      cases hlk : inp.lookup nd.1 with
      | some v =>
        rw [hlk] at this
        have hv : tvalDtype v = nd.2 := by
          simpa using this
        simp [hv]
      | none => rw [hlk] at this; cases this
    unfold modelPredict
    rw [hfm, hfd]

/-- A complete, correctly typed input mapping for the model. -/
def goodInput : List (String × TVal) :=
  [("followers", .float 100),
   ("following", .float 50),
   ("creation_date", .float 2010),
   ("number_of_tweets", .float 800),
   ("Retweet_Ratio", .float (3 / 10)),
   ("Profile_picture", .int 1),
   ("Tweets_Per_Day", .float 40),
   ("Bot_Score", .int 5)]

/-- Witness for C6: on a complete, correctly typed mapping the call
returns the network's raw output. -/
theorem c6_predict_signature_validation_witness :
    modelPredict (fun _ => 1 / 2) goodInput
      = .ok ((fun _ => (1 : ℚ) / 2) goodInput) :=
  (c6_predict_signature_validation (fun _ => 1 / 2) goodInput).2.2 (by decide)

/-- Witness for C5 at the empty training dataframe. -/
theorem c5_encoder_cross_wiring_witness :
    (adaptAll []).tweetsPerDaySlotState = categoryEncodingAdaptCol (colOf "Bot_Score" []) ∧
    (adaptAll []).botScoreSlotState = normalizationAdapt (colOf "Tweets_Per_Day" []) ∧
    (∃ dg : DF, (adaptAll dg).tweetsPerDaySlotState
        ≠ categoryEncodingAdaptCol (colOf "Tweets_Per_Day" dg) ∧
      (adaptAll dg).botScoreSlotState ≠ normalizationAdapt (colOf "Bot_Score" dg)) :=
  c5_encoder_cross_wiring []
